import Mathlib

/-!
Verification development for the eBay sports-card scraper repository
(`v3.py`, `escrape.py`, `escrapebulk1.py`).

The Python sources are shallowly embedded below.  Strings are modelled as
Lean `String`/`List Char`; the regular expressions `GRADE_RE` and
`CARD_NO_RE` are embedded as executable matchers that reproduce the
deterministic behaviour of the Python `re` engine on these particular
patterns (leftmost search, greedy quantifiers with the only backtracking
these patterns can perform).  Character classes (`\w`, `\d`, `\s`,
`[A-Z]` under IGNORECASE, `str.upper`, `str.isupper`) are modelled at
ASCII fidelity, matching the Python behaviour on all ASCII text.
Python exceptions (`IndexError` from `tok[0]` on an empty list,
`ValueError` from `int(...)`) are modelled with `Option`/explicit error
results.  The network is modelled as an oracle: a list of fetch
outcomes consumed by the retrieval loop, which is driven by explicit
fuel.
-/

/-! ## Character helpers (ASCII models of Python predicates) -/

/-- Python `\w` (ASCII): letters, digits, underscore. -/
def isWordChar (c : Char) : Bool := c.isAlpha || c.isDigit || c == '_'

/-- Python `\s` (ASCII): space, tab, newline, carriage return, vertical tab, form feed. -/
def isPySpace (c : Char) : Bool :=
  c == ' ' || c == '\t' || c == '\n' || c == '\r' || c == '\x0b' || c == '\x0c'

/-- `str.upper()` modelled character-wise (ASCII). -/
def pyUpper (s : String) : String := String.mk (s.toList.map Char.toUpper)

/-! ## Whitespace / separator tokenisation (Python `str.split`) -/

/-- Helper for `pySplit`: accumulates the current token (reversed). -/
def pySplitAux : List Char → List Char → List String
  | [], acc => if acc = [] then [] else [String.mk acc.reverse]
  | c :: cs, acc =>
    if isPySpace c then
      if acc = [] then pySplitAux cs []
      else String.mk acc.reverse :: pySplitAux cs []
    else pySplitAux cs (c :: acc)

/-- Python `str.split()` (no argument): split on whitespace runs, no empty tokens. -/
def pySplit (s : String) : List String := pySplitAux s.toList []

/-- Helper for `splitSep`: split on every occurrence of a separator char
(Python `str.split(sep)` semantics: empty pieces are kept). -/
def splitSepAux (sep : Char) : List Char → List Char → List String
  | [], acc => [String.mk acc.reverse]
  | c :: cs, acc =>
    if c = sep then String.mk acc.reverse :: splitSepAux sep cs []
    else splitSepAux sep cs (c :: acc)

/-- Python `str.split(sep)` for a one-character separator. -/
def splitSep (sep : Char) (s : String) : List String := splitSepAux sep s.toList []

/-- Python `str.strip()` (ASCII whitespace). -/
def pyStrip (s : String) : String :=
  String.mk (((s.toList.dropWhile isPySpace).reverse.dropWhile isPySpace).reverse)

/-! ## Attribute extractor, v3.py / escrapebulk1.py: player name

Source (`v3.py`):
```
def _clean(tok): return re.sub(r"[^A-Za-z]", "", tok).upper()
def guess_player(title):
    tok = title.split()
    clean = [_clean(t) for t in tok]
    for i in range(len(tok) - 1):
        if clean[i] in BRAND_STOPWORDS or clean[i + 1] in BRAND_STOPWORDS:
            continue
        if tok[i][0].isupper() and tok[i + 1][0].isupper():
            return f"{tok[i]} {tok[i + 1]}"
    return tok[0]
```
`tok[0]` raises `IndexError` when `title.split()` is empty; this is
modelled by `Option` (`none` = the exception). -/

/-- `_clean` from `v3.py`: strip non-letters, uppercase. -/
def cleanTok (t : String) : String :=
  String.mk ((t.toList.filter Char.isAlpha).map Char.toUpper)

/-- `BRAND_STOPWORDS` from `v3.py` (escrapebulk1.py additionally holds "KOBE"). -/
def BRAND_STOPWORDS : List String :=
  ["TOPPS", "UPPER", "DECK", "FLEER", "DONRUSS", "BOWMAN", "O-PEE-CHEE",
   "PANINI", "SELECT", "PRIZM", "OPTIC", "CHROME", "HOOPS", "STADIUM",
   "CLUB", "SKYBOX", "SCORE", "LEAF", "RC", "ROOKIE"]

/-- `tok[i][0].isupper()`; split tokens are never empty, the `[]` case is
unreachable on them (and `False` mirrors `isupper` of an uncased char). -/
def firstUpper (t : String) : Bool :=
  match t.toList with
  | [] => false
  | c :: _ => c.isUpper

/-- The `for i in range(len(tok) - 1)` scan over adjacent token pairs.
The Python precomputes `clean`; recomputing `cleanTok` per pair is
extensionally identical since `_clean` is pure. -/
def scanPairs : List String → Option String
  | t1 :: t2 :: ts =>
    if cleanTok t1 ∈ BRAND_STOPWORDS ∨ cleanTok t2 ∈ BRAND_STOPWORDS then
      scanPairs (t2 :: ts)
    else if firstUpper t1 ∧ firstUpper t2 then some (t1 ++ " " ++ t2)
    else scanPairs (t2 :: ts)
  | _ => none

/-- `guess_player` from `v3.py` (same code in `escrapebulk1.py` modulo the
stopword set).  `none` models the `IndexError` raised by `tok[0]` when the
title splits into no tokens. -/
def guess_player (title : String) : Option String :=
  let tok := pySplit title
  match scanPairs tok with
  | some p => some p
  | none => tok.head?

/-! ## GRADE_RE: `\b(PSA|BGS|SGC)\s*(\d+(?:\.\d)?)\b` with `re.IGNORECASE`

`v3.py`/`escrapebulk1.py` use the capturing form above; `escrape.py` uses the
same pattern with non-capturing groups and takes `group(0)` (the entire
matched text).  The matcher below returns the three consumed segments
(code, inter-segment whitespace, numeric token) so both variants can be
defined from it.

On this pattern the `re` engine is deterministic: the three alternatives
start with distinct letters; `\s*` and `\d+` are over disjoint character
classes so greedy matching never needs to give characters back across
them; the only real backtracking is dropping the optional `(?:\.\d)` when
the trailing `\b` fails after it, in which case `\b` holds anyway between
the last digit and the `.`. -/

/-- Case-insensitive literal match of `pat` as a prefix of `s`; returns the
matched (original-case) characters and the remainder. -/
def matchCI : List Char → List Char → Option (List Char × List Char)
  | [], s => some ([], s)
  | _ :: _, [] => none
  | p :: ps, c :: cs =>
    if p.toLower = c.toLower then
      match matchCI ps cs with
      | some (m, r) => some (c :: m, r)
      | none => none
    else none

/-- The alternation `(PSA|BGS|SGC)` (first-alternative-wins; the branches
have pairwise distinct initial letters, so order is immaterial). -/
def matchGradeCode (s : List Char) : Option (List Char × List Char) :=
  match matchCI ['P', 'S', 'A'] s with
  | some r => some r
  | none =>
    match matchCI ['B', 'G', 'S'] s with
    | some r => some r
    | none => matchCI ['S', 'G', 'C'] s

/-- The trailing `\b`: the next character (if any) must be a non-word char. -/
def boundaryOk : List Char → Bool
  | [] => true
  | c :: _ => !isWordChar c

/-- `\s*(\d+(?:\.\d)?)\b` after the authority code.  Returns
(whitespace segment, numeric-token group, remainder after the match). -/
def matchGradeNum (s : List Char) : Option (List Char × List Char × List Char) :=
  let ws := s.takeWhile isPySpace
  let r1 := s.dropWhile isPySpace
  let ds := r1.takeWhile Char.isDigit
  let r2 := r1.dropWhile Char.isDigit
  if ds = [] then none
  else
    match r2 with
    | '.' :: d :: r3 =>
      -- optional `\.\d`; if the `\b` after it fails we drop the option and
      -- `\b` holds between the last digit and the '.' (non-word char).
      if d.isDigit && boundaryOk r3 then some (ws, ds ++ ['.', d], r3)
      else some (ws, ds, r2)
    | _ => if boundaryOk r2 then some (ws, ds, r2) else none

/-- One attempt of the full pattern at the current position (the leading
`\b` is checked by the caller).  Returns (code, whitespace, numeric token). -/
def matchGradeHere (s : List Char) : Option (List Char × List Char × List Char) :=
  match matchGradeCode s with
  | none => none
  | some (code, rest) =>
    match matchGradeNum rest with
    | none => none
    | some (ws, num, _) => some (code, ws, num)

/-- `prev` non-word (or start of string) — the leading `\b` before a word
character.  (If the current char is non-word the code match fails anyway,
so this is equivalent to the full boundary condition.) -/
def prevBoundary : Option Char → Bool
  | none => true
  | some c => !isWordChar c

/-- `re.search` of GRADE_RE: scan positions left to right. -/
def findGradeAux : Option Char → List Char → Option (List Char × List Char × List Char)
  | _, [] => none
  | prev, c :: cs =>
    match (if prevBoundary prev then matchGradeHere (c :: cs) else none) with
    | some r => some r
    | none => findGradeAux (some c) cs

/-- Grade extraction of `v3.py`/`escrapebulk1.py` `parse_title`:
`f"{g_m.group(1).upper()} {g_m.group(2)}"` if matched, else `"N/A"`. -/
def grade_of (title : String) : String :=
  match findGradeAux none title.toList with
  | some (code, _, num) => pyUpper (String.mk code) ++ " " ++ String.mk num
  | none => "N/A"

/-- Grade extraction of `escrape.py` `parse_title`:
`grade_match.group(0).upper()` if matched, else `"N/A"` — the whole match,
original spacing preserved, uppercased. -/
def escGrade (title : String) : String :=
  match findGradeAux none title.toList with
  | some (code, ws, num) => pyUpper (String.mk (code ++ ws ++ num))
  | none => "N/A"

/-! ## CARD_NO_RE of v3.py / escrapebulk1.py:
`(?:#|No\.|Card\s*#?)\s*(\d{1,4}[A-Z]?)` with `re.IGNORECASE`

There is no word boundary in this pattern.  The label alternatives have
pairwise distinct initial characters ('#', 'N', 'C'), so alternation
order is immaterial; `\d{1,4}` is greedy but nothing follows the optional
`[A-Z]?`, so no backtracking can occur. -/

/-- The label `(?:#|No\.|Card\s*#?)`; returns the remainder after the label. -/
def matchCardLabel (s : List Char) : Option (List Char) :=
  match s with
  | '#' :: r => some r
  | _ =>
    match matchCI ['N', 'o', '.'] s with
    | some (_, r) => some r
    | none =>
      match matchCI ['C', 'a', 'r', 'd'] s with
      | some (_, r1) =>
        -- `\s*#?` inside the third alternative
        let r2 := r1.dropWhile isPySpace
        match r2 with
        | '#' :: r3 => some r3
        | _ => some r2
      | none => none

/-- One attempt of CARD_NO_RE at the current position; returns group 1. -/
def matchCardHere (s : List Char) : Option (List Char) :=
  match matchCardLabel s with
  | none => none
  | some r =>
    let r1 := r.dropWhile isPySpace
    let ds := (r1.takeWhile Char.isDigit).take 4
    if ds = [] then none
    else
      match r1.drop ds.length with
      | c :: _ => if c.isAlpha then some (ds ++ [c]) else some ds
      | [] => some ds

/-- `re.search` of CARD_NO_RE: scan positions left to right. -/
def findCardAux : List Char → Option (List Char)
  | [] => none
  | c :: cs =>
    match matchCardHere (c :: cs) with
    | some r => some r
    | none => findCardAux cs

/-- Card-number extraction of `v3.py` `parse_title`:
`n_m.group(1)` if matched, else `"N/A"`. -/
def card_no_of (title : String) : String :=
  match findCardAux title.toList with
  | some g => String.mk g
  | none => "N/A"

/-- `parse_title` of `v3.py` (and `escrapebulk1.py`): the returned dict.
`none` models the `IndexError` escaping from `guess_player`. -/
structure Parsed where
  player : String
  grade : String
  card_no : String
deriving DecidableEq

def parse_title (title : String) : Option Parsed :=
  match guess_player title with
  | some p => some ⟨p, grade_of title, card_no_of title⟩
  | none => none

/-! ## escrape.py attribute extractor

```
GRADE_RE = re.compile(r"\b(?:PSA|BGS|SGC)\s*(?:\d+(?:\.\d)?)\b", re.IGNORECASE)
CARD_NO_RE = re.compile(r"#?\s*(\d{1,4}[A-Z]?)\b")
def parse_title(title):
    parts = title.split(" ")
    player = " ".join(parts[:2]) if len(parts) >= 2 else parts[0]
    grade = grade_match.group(0).upper() if grade_match else "N/A"
    card_no = card_no_match.group(1) if card_no_match else "N/A"
```
`escrape.py`'s card pattern has an optional label and a trailing `\b`, and
is case sensitive; `\d{1,4}` here does backtrack against the trailing
`\b` (each shorter digit count is retried). -/

/-- `\d{1,4}[A-Z]?\b` with backtracking over the digit count `j`,
from `j` down to 1.  `[A-Z]` is case sensitive in escrape.py's pattern,
but `[A-Z]` only: we use `Char.isUpper`. -/
def eTryDigits : Nat → List Char → Option (List Char)
  | 0, _ => none
  | j + 1, r1 =>
    let ds := r1.take (j + 1)
    let attempt : Option (List Char) :=
      if ds.length = j + 1 ∧ ds.all Char.isDigit then
        match r1.drop (j + 1) with
        | [] => some ds
        | c :: rest2 =>
          if c.isUpper then (if boundaryOk rest2 then some (ds ++ [c]) else none)
          else if isWordChar c then none
          else some ds
      else none
    match attempt with
    | some g => some g
    | none => eTryDigits j r1

/-- One attempt of escrape.py's CARD_NO_RE at the current position. -/
def eCardHere (s : List Char) : Option (List Char) :=
  let r0 := match s with
    | '#' :: r => r  -- `#?` greedy; if the tail fails, retrying without the
    | _ => s         -- '#' fails at once (`\s*`/`\d` cannot match '#')
  let r1 := r0.dropWhile isPySpace
  eTryDigits 4 r1

/-- `re.search` of escrape.py's CARD_NO_RE. -/
def eFindCard : List Char → Option (List Char)
  | [] => none
  | c :: cs =>
    match eCardHere (c :: cs) with
    | some r => some r
    | none => eFindCard cs

/-- Card-number extraction of `escrape.py`. -/
def eCardNo (title : String) : String :=
  match eFindCard title.toList with
  | some g => String.mk g
  | none => "N/A"

/-- Player extraction of `escrape.py`: first two space-separated fields
(`title.split(" ")` keeps empty fields and is never an empty list). -/
def escrapePlayer (title : String) : String :=
  match splitSep ' ' title with
  | p1 :: p2 :: _ => p1 ++ " " ++ p2
  | [p1] => p1
  | [] => ""  -- unreachable: splitSep never returns []

/-- `parse_title` of `escrape.py` — total, unlike the v3 variant. -/
def escrapeParseTitle (title : String) : Parsed :=
  ⟨escrapePlayer title, escGrade title, eCardNo title⟩

/-! ## parse_years (identical in v3.py and escrapebulk1.py)

```
def parse_years(arg):
    years = []
    for part in arg.split(','):
        part = part.strip()
        if not part: continue
        if '-' in part:
            s, e = map(int, part.split('-', 1))
            years.extend(range(s, e + 1))
        else:
            years.append(int(part))
    return sorted(set(years))
```
`int(...)` may raise `ValueError`; `none` models the exception escaping. -/

/-- Python `int(str)` on an optionally signed decimal literal with
optional surrounding whitespace (underscore digit grouping not modelled;
no claim exercises it). -/
def pyInt (s : String) : Option Int :=
  let l := (((s.toList.dropWhile isPySpace).reverse.dropWhile isPySpace).reverse)
  let digitsToInt : List Char → Option Int := fun ds =>
    if ds ≠ [] ∧ ds.all Char.isDigit then
      some (ds.foldl (fun a c => a * 10 + ((c.toNat : Int) - ('0'.toNat : Int))) 0)
    else none
  match l with
  | '+' :: ds => digitsToInt ds
  | '-' :: ds => (digitsToInt ds).map Int.neg
  | ds => digitsToInt ds

/-- Python `range(s, e + 1)` as a list. -/
def pyRangeIncl (s e : Int) : List Int :=
  (List.range (e + 1 - s).toNat).map (fun i => s + (i : Int))

/-- Insert into an ascending duplicate-free list. -/
def insertSorted (x : Int) : List Int → List Int
  | [] => [x]
  | y :: ys =>
    if x < y then x :: y :: ys
    else if x = y then y :: ys
    else y :: insertSorted x ys

/-- Python `sorted(set(l))`. -/
def sortedDedup (l : List Int) : List Int := l.foldl (fun acc x => insertSorted x acc) []

/-- The contribution of one comma-separated token of the year spec:
`some []` for a blank token (skipped), `none` for a `ValueError`. -/
def tokenYears (part0 : String) : Option (List Int) :=
  let part := pyStrip part0
  if part = "" then some []
  else if '-' ∈ part.toList then
    -- part.split('-', 1)
    let s1 := String.mk (part.toList.takeWhile (fun c => c ≠ '-'))
    let s2 := String.mk ((part.toList.dropWhile (fun c => c ≠ '-')).drop 1)
    match pyInt s1, pyInt s2 with
    | some s, some e => some (pyRangeIncl s e)
    | _, _ => none
  else
    match pyInt part with
    | some n => some [n]
    | none => none

/-- `parse_years` of v3.py / escrapebulk1.py. -/
def parse_years (arg : String) : Option (List Int) :=
  match (splitSep ',' arg).foldl
      (fun acc p =>
        match acc, tokenYears p with
        | some ys, some c => some (ys ++ c)
        | _, _ => none)
      (some []) with
  | some ys => some (sortedDedup ys)
  | none => none

/-! ## Retrieval Controller of v3.py (`scrape_year`)

```
def scrape_year(year, *, app_id, outdir, max_pages=0, delay=1.0, debug=False):
    rows = []; page = 1; fetched_pages = 0
    while True:
        if max_pages and fetched_pages >= max_pages: break
        try: resp = ebay_find(app_id, kw, page)
        except Exception: print warn; time.sleep(5); continue
        items = extract_items(resp)
        if not items: break
        total_pg = total_pages(resp)
        for it in items: rows.append({... parse_title(title) ...})
        fetched_pages += 1
        if page >= total_pg: break
        page += 1
        time.sleep(delay)
    if rows: write csv
    return rows
```
The network is an oracle (a list of fetch outcomes, one consumed per
`ebay_find` call); the loop takes explicit fuel.  `extract_items` /
`total_pages` degrade missing fields to `[]` / `0` inside the Fetcher, so
a successful outcome carries the already-extracted item list and total
page count.  `calls` counts `ebay_find` invocations (instrumentation),
and `trace` records the sleeps (5-unit retry cooldown, inter-page delay). -/

/-- A raw item, with the `it.get(key, [""])[0]` defaulting already applied
(absent fields are empty strings, per the source's defaulting). -/
structure RawItem where
  title : String
  viewItemURL : String
  galleryURL : String
  itemId : String
deriving DecidableEq

/-- A decoded successful response, after `extract_items`/`total_pages`. -/
structure Response where
  items : List RawItem
  totalPages : Int
deriving DecidableEq

/-- One `ebay_find` call either raises (any exception) or yields a response. -/
inductive FetchOutcome where
  | failure
  | success (r : Response)
deriving DecidableEq

/-- Observable sleeps of the loop. -/
inductive Event where
  | warn (page : Nat) (cooldown : Nat)
  | sleep (delay : ℚ)
deriving DecidableEq

/-- One row of the per-year result set (v3.py column order). -/
structure Row where
  year : Int
  title : String
  player : String
  grade : String
  card_no : String
  item_url : String
  gallery_url : String
deriving DecidableEq

/-- The body of `for it in items` in v3.py: build one row.  `none` models
the `IndexError` escaping from `parse_title`/`guess_player`. -/
def mkRow (year : Int) (it : RawItem) : Option Row :=
  match parse_title it.title with
  | some p => some ⟨year, it.title, p.player, p.grade, p.card_no, it.viewItemURL, it.galleryURL⟩
  | none => none

/-- Process one page's items in order; the first extraction failure aborts
(the exception propagates out of `scrape_year`). -/
def processItems (year : Int) : List RawItem → Option (List Row)
  | [] => some []
  | it :: its =>
    match mkRow year it, processItems year its with
    | some r, some rs => some (r :: rs)
    | _, _ => none

/-- Loop state of `scrape_year`. -/
structure LoopSt where
  page : Nat
  fetched : Nat
  rows : List Row
  calls : Nat
  trace : List Event
deriving DecidableEq

/-- Result of running the loop. -/
inductive RunResult where
  | done (st : LoopSt)
  | crashed (st : LoopSt)
  | outOfGas
deriving DecidableEq

/-- Initial state: `page = 1`, `fetched_pages = 0`, `rows = []`. -/
def initState : LoopSt := ⟨1, 0, [], 0, []⟩

/-- The `while True` loop of v3.py's `scrape_year`, driven by fuel and the
fetch-outcome oracle.  `maxPages : Int` with Python truthiness:
`if max_pages and fetched_pages >= max_pages`. -/
def runScrape (year : Int) (maxPages : Int) (delay : ℚ) :
    Nat → LoopSt → List FetchOutcome → RunResult
  | 0, _, _ => .outOfGas
  | fuel + 1, st, outs =>
    if maxPages ≠ 0 ∧ (st.fetched : Int) ≥ maxPages then .done st
    else
      match outs with
      | [] => .outOfGas
      | .failure :: rest =>
        -- `except`: warn, `time.sleep(5)`, `continue` — same page, nothing else changes
        runScrape year maxPages delay fuel
          { st with calls := st.calls + 1, trace := st.trace ++ [.warn st.page 5] } rest
      | .success r :: rest =>
        let st1 := { st with calls := st.calls + 1 }
        if r.items.isEmpty then .done st1
        else
          match processItems year r.items with
          | none => .crashed st1
          | some newRows =>
            let st2 := { st1 with rows := st1.rows ++ newRows, fetched := st1.fetched + 1 }
            if (st2.page : Int) ≥ r.totalPages then .done st2
            else
              runScrape year maxPages delay fuel
                { st2 with page := st2.page + 1, trace := st2.trace ++ [.sleep delay] } rest

/-- `if rows:` guard before the per-year CSV write in v3.py (and
escrapebulk1.py): a file is produced iff the row list is non-empty. -/
def writesCsv (rows : List Row) : Bool := !rows.isEmpty

/-! ## Retrieval Controller of escrape.py (`scrape_year`)

```
def scrape_year(year, app_id, max_pages=10, delay=1.0):
    all_rows = []
    for page in range(1, max_pages + 1):
        items = ebay_find_items(app_id, keyword, page_num=page)   # may raise
        if not items: break
        for item in items: ... parse_title ... all_rows.append(row)
        time.sleep(delay)
    csv_path = Path(f"cards_{year}.csv")
    with open(csv_path, "w", ...) as f:
        writer = csv.DictWriter(f, fieldnames=list(all_rows[0].keys()))   # IndexError if empty
        ...
```
No retry here: a fetch exception propagates out.  The CSV write is
unconditional: on an empty year the file is created and then
`all_rows[0]` raises `IndexError`. -/

/-- One row of escrape.py's result set (its column order). -/
structure ERow where
  year : Int
  title : String
  player : String
  grade : String
  card_no : String
  image_file : String
  item_url : String
deriving DecidableEq

/-- `player.replace(' ', '_')`. -/
def replSpace (s : String) : String :=
  String.mk (s.toList.map (fun c => if c = ' ' then '_' else c))

/-- escrape.py's per-item row (image download is an external side effect,
not modelled; `image_file` records the path it would use). -/
def eRow (year : Int) (it : RawItem) : ERow :=
  let p := escrapeParseTitle it.title
  let filename := replSpace p.player ++ "_" ++ p.card_no ++ "_" ++ p.grade ++ "_"
      ++ it.itemId ++ ".jpg"
  ⟨year, it.title, p.player, p.grade, p.card_no,
   "images/" ++ toString year ++ "/" ++ filename, it.viewItemURL⟩

/-- Result of an escrape.py year run. -/
inductive EResult where
  | saved (rows : List ERow)   -- CSV written with these rows
  | indexError                 -- `all_rows[0]` on the empty list
  | netError                   -- uncaught fetch exception
  | outOfGas
deriving DecidableEq

/-- The unconditional save step (escrape.py lines 100-106): the file is
opened (created) first, then `all_rows[0]` raises on an empty year. -/
def eSave (rows : List ERow) : EResult :=
  if rows.isEmpty then .indexError else .saved rows

/-- The `for page in range(1, max_pages + 1)` loop; the remaining page
count plays the role of fuel exactly. -/
def escrapeGo (year : Int) : Nat → List ERow → List FetchOutcome → EResult
  | 0, rows, _ => eSave rows
  | _ + 1, _, [] => .outOfGas
  | _ + 1, _, .failure :: _ => .netError
  | n + 1, rows, .success r :: rest =>
    if r.items.isEmpty then eSave rows
    else escrapeGo year n (rows ++ r.items.map (eRow year)) rest

/-- `scrape_year` of escrape.py. -/
def escrapeRun (year : Int) (maxPages : Nat) (outs : List FetchOutcome) : EResult :=
  escrapeGo year maxPages [] outs

/-! ## Matcher-independent predicates used to state the claims -/

/-- The last character of `pre`, else the carried previous character —
the character immediately left of the current scan position. -/
def myLast : Option Char → List Char → Option Char
  | prev, [] => prev
  | _, c :: cs => myLast (some c) cs

/-- The character (if any) is a non-word character: a `\b` holds against a
following word character. -/
def boundaryO (o : Option Char) : Prop := ∀ c, o = some c → isWordChar c = false

/-- `pat` is a case-insensitive prefix of `s` (plain character comparison,
independent of the matcher). -/
def startsWithCI : List Char → List Char → Bool
  | [], _ => true
  | _ :: _, [] => false
  | p :: ps, c :: cs => (c.toLower == p.toLower) && startsWithCI ps cs

/-- `pat` occurs case-insensitively somewhere in `l`. -/
def containsTokenCI (pat : List Char) : List Char → Bool
  | [] => startsWithCI pat []
  | c :: cs => startsWithCI pat (c :: cs) || containsTokenCI pat cs

/-- The title contains one of the three authority codes (as a substring,
case-insensitive, regardless of word boundaries). -/
def containsGradeCode (l : List Char) : Bool :=
  containsTokenCI ['P', 'S', 'A'] l || containsTokenCI ['B', 'G', 'S'] l
    || containsTokenCI ['S', 'G', 'C'] l

/-- The title contains a character/substring that can begin a card-number
label: `#`, `No.` or `Card` (case-insensitive). -/
def containsCardLabel (l : List Char) : Bool :=
  containsTokenCI ['#'] l || containsTokenCI ['N', 'o', '.'] l
    || containsTokenCI ['C', 'a', 'r', 'd'] l

/-- A well-formed numeric grade token: an integer, or an integer with one
decimal place. -/
def isGradeNum (num : List Char) : Prop :=
  (num ≠ [] ∧ num.all Char.isDigit = true) ∨
  (∃ ds d, num = ds ++ ['.', d] ∧ ds ≠ [] ∧ ds.all Char.isDigit = true ∧ d.isDigit = true)

/-- A grading-pattern occurrence inside `l`, decomposed as
`pre ++ code ++ ws ++ num ++ post`: an authority code (up to case), then
optional whitespace, then a numeric grade token, with word boundaries on
both sides. -/
def gradeOccAt (l pre code ws num post : List Char) : Prop :=
  l = pre ++ code ++ ws ++ num ++ post ∧
  code.map Char.toLower ∈ [['p', 's', 'a'], ['b', 'g', 's'], ['s', 'g', 'c']] ∧
  ws.all isPySpace = true ∧
  isGradeNum num ∧
  boundaryO (myLast none pre) ∧
  boundaryO post.head?

/-- The title contains a grading pattern. -/
def hasGradePattern (t : String) : Prop :=
  ∃ pre code ws num post, gradeOccAt t.toList pre code ws num post

/-! ## Helper lemmas -/

theorem takeWhile_all {p : Char → Bool} : ∀ l : List Char, (l.takeWhile p).all p = true := by
  intro l
  induction l with
  | nil => rfl
  | cons c cs ih =>
    by_cases h : p c = true
    · simp [List.takeWhile_cons, h, ih]
    · simp [List.takeWhile_cons, h]

theorem dropWhile_head_not {p : Char → Bool} :
    ∀ (l : List Char) (c : Char), (l.dropWhile p).head? = some c → p c = false := by
  intro l
  induction l with
  | nil => intro c h; simp at h
  | cons x xs ih =>
    intro c h
    by_cases hx : p x = true
    · exact ih c (by simpa [List.dropWhile_cons, hx] using h)
    · simp [List.dropWhile_cons, hx] at h
      rw [← h]
      exact Bool.eq_false_iff.mpr hx

theorem takeWhile_append_exact {p : Char → Bool} :
    ∀ (xs ys : List Char), xs.all p = true →
      (∀ c, ys.head? = some c → p c = false) →
      (xs ++ ys).takeWhile p = xs ∧ (xs ++ ys).dropWhile p = ys := by
  intro xs
  induction xs with
  | nil =>
    intro ys _ hhead
    cases ys with
    | nil => exact ⟨rfl, rfl⟩
    | cons y ys' =>
      have hy : p y = false := hhead y rfl
      constructor
      · simp [List.takeWhile_cons, hy]
      · simp [List.dropWhile_cons, hy]
  | cons x xs' ih =>
    intro ys hall hhead
    have hx : p x = true := by
      have := List.all_eq_true.mp hall
      exact this x (by simp)
    have hall' : xs'.all p = true := by
      refine List.all_eq_true.mpr ?_
      intro y hy
      exact List.all_eq_true.mp hall y (by simp [hy])
    have ⟨h1, h2⟩ := ih ys hall' hhead
    constructor
    · simp [List.takeWhile_cons, hx, h1]
    · simp [List.dropWhile_cons, hx, h2]

theorem pySpace_not_digit {c : Char} (h : c.isDigit = true) : isPySpace c = false := by
  by_contra hc
  have hc' : isPySpace c = true := by
    cases h2 : isPySpace c
    · exact absurd h2 hc
    · rfl
  unfold isPySpace at hc'
  simp only [Bool.or_eq_true, beq_iff_eq] at hc'
  rcases hc' with ((((h1 | h1) | h1) | h1) | h1) | h1 <;> subst h1 <;> simp [Char.isDigit] at h

theorem digit_isWordChar {c : Char} (h : c.isDigit = true) : isWordChar c = true := by
  unfold isWordChar
  simp [h]

theorem dot_not_digit : ('.').isDigit = false := by decide

theorem dot_not_word : isWordChar '.' = false := by decide

theorem matchCI_sound :
    ∀ (pat s m r : List Char), matchCI pat s = some (m, r) →
      s = m ++ r ∧ m.map Char.toLower = pat.map Char.toLower := by
  intro pat
  induction pat with
  | nil =>
    intro s m r h
    simp [matchCI] at h
    simp [← h.1, ← h.2]
  | cons p ps ih =>
    intro s m r h
    cases s with
    | nil => simp [matchCI] at h
    | cons c cs =>
      by_cases hc : p.toLower = c.toLower
      · simp only [matchCI, if_pos hc] at h
        cases hm : matchCI ps cs with
        | none => rw [hm] at h; simp at h
        | some x =>
          obtain ⟨m', r'⟩ := x
          rw [hm] at h
          simp at h
          obtain ⟨hm1, hr⟩ := h
          obtain ⟨hcs, hmap⟩ := ih cs m' r' hm
          subst hr
          rw [← hm1]
          constructor
          · simp [hcs]
          · simp [hmap, hc]
      · simp [matchCI, if_neg hc] at h

theorem matchCI_complete :
    ∀ (pat code rest : List Char), code.map Char.toLower = pat.map Char.toLower →
      matchCI pat (code ++ rest) = some (code, rest) := by
  intro pat
  induction pat with
  | nil =>
    intro code rest h
    have : code = [] := by simpa using h
    subst this
    rfl
  | cons p ps ih =>
    intro code rest h
    cases code with
    | nil => simp at h
    | cons c cs =>
      simp only [List.map_cons, List.cons.injEq] at h
      obtain ⟨hc, hcs⟩ := h
      simp only [List.cons_append, matchCI, if_pos hc.symm]
      rw [show cs.append rest = cs ++ rest from rfl, ih cs rest hcs]

theorem matchGradeCode_sound {s code rest : List Char}
    (h : matchGradeCode s = some (code, rest)) :
    s = code ++ rest ∧
      code.map Char.toLower ∈ [['p', 's', 'a'], ['b', 'g', 's'], ['s', 'g', 'c']] := by
  unfold matchGradeCode at h
  cases h1 : matchCI ['P', 'S', 'A'] s with
  | some x =>
    rw [h1] at h
    simp at h
    obtain ⟨hs, hm⟩ := matchCI_sound _ _ _ _ (h ▸ h1)
    refine ⟨hs, ?_⟩
    rw [hm]
    simp [show (['P', 'S', 'A'].map Char.toLower) = ['p', 's', 'a'] from by decide]
  | none =>
    rw [h1] at h
    cases h2 : matchCI ['B', 'G', 'S'] s with
    | some x =>
      rw [h2] at h
      simp at h
      obtain ⟨hs, hm⟩ := matchCI_sound _ _ _ _ (h ▸ h2)
      refine ⟨hs, ?_⟩
      rw [hm]
      simp [show (['B', 'G', 'S'].map Char.toLower) = ['b', 'g', 's'] from by decide]
    | none =>
      rw [h2] at h
      obtain ⟨hs, hm⟩ := matchCI_sound _ _ _ _ h
      refine ⟨hs, ?_⟩
      rw [hm]
      simp [show (['S', 'G', 'C'].map Char.toLower) = ['s', 'g', 'c'] from by decide]

theorem matchGradeCode_complete {code : List Char} (rest : List Char)
    (h : code.map Char.toLower ∈ [['p', 's', 'a'], ['b', 'g', 's'], ['s', 'g', 'c']]) :
    matchGradeCode (code ++ rest) = some (code, rest) := by
  simp only [List.mem_cons, List.not_mem_nil, or_false] at h
  unfold matchGradeCode
  rcases h with h | h | h
  · rw [matchCI_complete ['P', 'S', 'A'] code rest (by rw [h]; decide)]
  · cases code with
    | nil => simp at h
    | cons c1 cs =>
      simp only [List.map_cons, List.cons.injEq] at h
      have hfail : matchCI ['P', 'S', 'A'] (c1 :: cs ++ rest) = none := by
        simp only [matchCI]
        rw [if_neg]
        rw [show ('P').toLower = 'p' from by decide, h.1]
        decide
      rw [hfail,
        matchCI_complete ['B', 'G', 'S'] (c1 :: cs) rest
          (by simp [List.map_cons, h.1, h.2])]
  · cases code with
    | nil => simp at h
    | cons c1 cs =>
      simp only [List.map_cons, List.cons.injEq] at h
      have hfail1 : matchCI ['P', 'S', 'A'] (c1 :: cs ++ rest) = none := by
        simp only [matchCI]
        rw [if_neg]
        rw [show ('P').toLower = 'p' from by decide, h.1]
        decide
      have hfail2 : matchCI ['B', 'G', 'S'] (c1 :: cs ++ rest) = none := by
        simp only [matchCI]
        rw [if_neg]
        rw [show ('B').toLower = 'b' from by decide, h.1]
        decide
      rw [hfail1, hfail2,
        matchCI_complete ['S', 'G', 'C'] (c1 :: cs) rest
          (by simp [List.map_cons, h.1, h.2])]

theorem boundaryOk_sound {l : List Char} (h : boundaryOk l = true) : boundaryO l.head? := by
  cases l with
  | nil => intro c hc; simp at hc
  | cons c cs =>
    intro c' hc'
    simp at hc'
    subst hc'
    simpa [boundaryOk] using h

theorem boundaryOk_of_boundaryO {l : List Char} (h : boundaryO l.head?) : boundaryOk l = true := by
  cases l with
  | nil => rfl
  | cons c cs => simp [boundaryOk, h c rfl]

theorem matchGradeNum_sound {s ws num r : List Char}
    (h : matchGradeNum s = some (ws, num, r)) :
    s = ws ++ num ++ r ∧ ws.all isPySpace = true ∧ isGradeNum num ∧ boundaryO r.head? := by
  have hs1 : s.takeWhile isPySpace ++ s.dropWhile isPySpace = s :=
    List.takeWhile_append_dropWhile isPySpace s
  have hs2 : (s.dropWhile isPySpace).takeWhile Char.isDigit
      ++ (s.dropWhile isPySpace).dropWhile Char.isDigit = s.dropWhile isPySpace :=
    List.takeWhile_append_dropWhile Char.isDigit (s.dropWhile isPySpace)
  have hwall : (s.takeWhile isPySpace).all isPySpace = true := takeWhile_all s
  have hdall : ((s.dropWhile isPySpace).takeWhile Char.isDigit).all Char.isDigit = true :=
    takeWhile_all _
  have hsfull : s = s.takeWhile isPySpace ++
      ((s.dropWhile isPySpace).takeWhile Char.isDigit
        ++ (s.dropWhile isPySpace).dropWhile Char.isDigit) := by
    rw [hs2, hs1]
  simp only [matchGradeNum] at h
  split at h
  · exact absurd h (by simp)
  · rename_i hnil
    split at h
    · rename_i d r3 heq
      split at h
      · rename_i hcond
        simp only [Option.some.injEq, Prod.mk.injEq] at h
        obtain ⟨hws, hnum, hr⟩ := h
        simp only [Bool.and_eq_true] at hcond
        refine ⟨?_, hws ▸ hwall, ?_, hr ▸ boundaryOk_sound hcond.2⟩
        · rw [hsfull, heq, ← hws, ← hnum, ← hr]
          simp
        · rw [← hnum]
          exact Or.inr ⟨_, d, rfl, hnil, hdall, hcond.1⟩
      · simp only [Option.some.injEq, Prod.mk.injEq] at h
        obtain ⟨hws, hnum, hr⟩ := h
        refine ⟨?_, hws ▸ hwall, ?_, ?_⟩
        · rw [hsfull, ← hws, ← hnum, ← hr]
          simp
        · exact Or.inl ⟨hnum ▸ hnil, hnum ▸ hdall⟩
        · intro c hc
          rw [← hr, heq] at hc
          simp at hc
          rw [← hc]
          exact dot_not_word
    · rename_i hshape
      split at h
      · rename_i hb
        simp only [Option.some.injEq, Prod.mk.injEq] at h
        obtain ⟨hws, hnum, hr⟩ := h
        refine ⟨?_, hws ▸ hwall, Or.inl ⟨hnum ▸ hnil, hnum ▸ hdall⟩, hr ▸ boundaryOk_sound hb⟩
        rw [hsfull, ← hws, ← hnum, ← hr]
        simp
      · exact absurd h (by simp)

theorem matchGradeNum_complete {ws num post : List Char}
    (hws : ws.all isPySpace = true) (hnum : isGradeNum num) (hpost : boundaryO post.head?) :
    (matchGradeNum (ws ++ num ++ post)).isSome = true := by
  -- the head of `num` is a digit in both cases of `isGradeNum`
  obtain ⟨d0, nrest, hn0⟩ : ∃ d0 nrest, num = d0 :: nrest ∧ d0.isDigit = true := by
    rcases hnum with ⟨hne, hall⟩ | ⟨ds, d, hsplit, hne, hall, _⟩
    · cases num with
      | nil => exact absurd rfl hne
      | cons d0 nrest =>
        refine ⟨d0, nrest, rfl, ?_⟩
        have := List.all_eq_true.mp hall d0 (by simp)
        exact this
    · cases ds with
      | nil => exact absurd rfl hne
      | cons d0 dsrest =>
        refine ⟨d0, dsrest ++ ['.', d] , by simp [hsplit], ?_⟩
        have := List.all_eq_true.mp hall d0 (by simp)
        exact this
  have hsplitws : (ws ++ (num ++ post)).takeWhile isPySpace = ws ∧
      (ws ++ (num ++ post)).dropWhile isPySpace = num ++ post := by
    refine takeWhile_append_exact ws (num ++ post) hws ?_
    intro c hc
    rw [hn0.1] at hc
    simp at hc
    rw [← hc]
    exact pySpace_not_digit hn0.2
  simp only [matchGradeNum]
  rw [show ws ++ num ++ post = ws ++ (num ++ post) from by simp, hsplitws.1, hsplitws.2]
  rcases hnum with ⟨hne, hall⟩ | ⟨ds, d, hsplit, hne, hall, hd⟩
  · -- integer grade: the digit run is exactly `num`
    have hdsplit : (num ++ post).takeWhile Char.isDigit = num ∧
        (num ++ post).dropWhile Char.isDigit = post := by
      refine takeWhile_append_exact num post hall ?_
      intro c hc
      have hw := hpost c hc
      cases hdg : c.isDigit
      · rfl
      · rw [digit_isWordChar hdg] at hw; exact absurd hw (by simp)
    rw [hdsplit.1, hdsplit.2, if_neg hne]
    have hb : boundaryOk post = true := boundaryOk_of_boundaryO hpost
    split
    · split <;> simp
    · simp [hb]
  · -- decimal grade: the digit run is `ds`, then '.', digit, post
    subst hsplit
    have hdsplit : ((ds ++ ['.', d]) ++ post).takeWhile Char.isDigit = ds ∧
        ((ds ++ ['.', d]) ++ post).dropWhile Char.isDigit = '.' :: d :: post := by
      rw [show (ds ++ ['.', d]) ++ post = ds ++ ('.' :: d :: post) from by simp]
      refine takeWhile_append_exact ds ('.' :: d :: post) hall ?_
      intro c hc
      simp at hc
      rw [← hc]
      exact dot_not_digit
    rw [hdsplit.1, hdsplit.2, if_neg hne]
    simp [hd, boundaryOk_of_boundaryO hpost]

theorem matchGradeHere_sound {s code ws num : List Char}
    (h : matchGradeHere s = some (code, ws, num)) :
    ∃ post, s = code ++ ws ++ num ++ post ∧
      code.map Char.toLower ∈ [['p', 's', 'a'], ['b', 'g', 's'], ['s', 'g', 'c']] ∧
      ws.all isPySpace = true ∧ isGradeNum num ∧ boundaryO post.head? := by
  unfold matchGradeHere at h
  cases h1 : matchGradeCode s with
  | none => rw [h1] at h; simp at h
  | some x =>
    obtain ⟨code', rest⟩ := x
    rw [h1] at h
    dsimp only at h
    cases h2 : matchGradeNum rest with
    | none => rw [h2] at h; simp at h
    | some y =>
      obtain ⟨ws', num', r'⟩ := y
      rw [h2] at h
      simp only [Option.some.injEq, Prod.mk.injEq] at h
      obtain ⟨hc, hw, hn⟩ := h
      subst hc; subst hw; subst hn
      obtain ⟨hs, hcodes⟩ := matchGradeCode_sound h1
      obtain ⟨hrest, hwall, hnum, hb⟩ := matchGradeNum_sound h2
      refine ⟨r', ?_, hcodes, hwall, hnum, hb⟩
      rw [hs, hrest]
      simp

theorem matchGradeHere_complete {code ws num post : List Char}
    (hcode : code.map Char.toLower ∈ [['p', 's', 'a'], ['b', 'g', 's'], ['s', 'g', 'c']])
    (hws : ws.all isPySpace = true) (hnum : isGradeNum num) (hpost : boundaryO post.head?) :
    (matchGradeHere (code ++ ws ++ num ++ post)).isSome = true := by
  unfold matchGradeHere
  rw [show code ++ ws ++ num ++ post = code ++ (ws ++ num ++ post) from by simp,
    matchGradeCode_complete (ws ++ num ++ post) hcode]
  dsimp only
  have hns := matchGradeNum_complete hws hnum hpost
  cases h2 : matchGradeNum (ws ++ num ++ post) with
  | none => rw [h2] at hns; simp at hns
  | some y =>
    obtain ⟨a, b, c⟩ := y
    rfl

theorem prevBoundary_sound {prev : Option Char} (h : prevBoundary prev = true) :
    boundaryO prev := by
  cases prev with
  | none => intro c hc; simp at hc
  | some c =>
    intro c' hc'
    simp at hc'
    subst hc'
    simpa [prevBoundary] using h

theorem prevBoundary_of {prev : Option Char} (h : boundaryO prev) :
    prevBoundary prev = true := by
  cases prev with
  | none => rfl
  | some c => simp [prevBoundary, h c rfl]

theorem findGradeAux_sound :
    ∀ (tail : List Char) (prev : Option Char) (code ws num : List Char),
      findGradeAux prev tail = some (code, ws, num) →
      ∃ mid post, tail = mid ++ code ++ ws ++ num ++ post ∧
        code.map Char.toLower ∈ [['p', 's', 'a'], ['b', 'g', 's'], ['s', 'g', 'c']] ∧
        ws.all isPySpace = true ∧ isGradeNum num ∧
        boundaryO (myLast prev mid) ∧ boundaryO post.head? := by
  intro tail
  induction tail with
  | nil => intro prev code ws num h; simp [findGradeAux] at h
  | cons c cs ih =>
    intro prev code ws num h
    unfold findGradeAux at h
    cases hpb : prevBoundary prev with
    | false =>
      rw [hpb] at h
      simp only [Bool.false_eq_true, if_false] at h
      obtain ⟨mid, post, hsplit, hcode, hws, hnum, hbl, hbr⟩ := ih (some c) code ws num h
      exact ⟨c :: mid, post, by rw [List.cons_append, hsplit]; simp, hcode, hws, hnum, hbl, hbr⟩
    | true =>
      rw [hpb] at h
      simp only [if_true] at h
      cases hm : matchGradeHere (c :: cs) with
      | some r =>
        rw [hm] at h
        simp only [Option.some.injEq] at h
        subst h
        obtain ⟨post, hsplit, hcode, hws, hnum, hb⟩ := matchGradeHere_sound hm
        exact ⟨[], post, by rw [hsplit]; simp, hcode, hws, hnum,
          prevBoundary_sound hpb, hb⟩
      | none =>
        rw [hm] at h
        obtain ⟨mid, post, hsplit, hcode, hws, hnum, hbl, hbr⟩ := ih (some c) code ws num h
        exact ⟨c :: mid, post, by rw [List.cons_append, hsplit]; simp, hcode, hws, hnum, hbl, hbr⟩

theorem findGradeAux_complete :
    ∀ (pre : List Char) (prev : Option Char) (tail : List Char),
      boundaryO (myLast prev pre) → (matchGradeHere tail).isSome = true →
      (findGradeAux prev (pre ++ tail)).isSome = true := by
  intro pre
  induction pre with
  | nil =>
    intro prev tail hb hm
    cases tail with
    | nil => simp [matchGradeHere, matchGradeCode, matchCI] at hm
    | cons c cs =>
      have hpb : prevBoundary prev = true := prevBoundary_of hb
      cases hmm : matchGradeHere (c :: cs) with
      | none => rw [hmm] at hm; simp at hm
      | some r => simp [findGradeAux, hpb, hmm]
  | cons p ps ih =>
    intro prev tail hb hm
    show (findGradeAux prev (p :: (ps ++ tail))).isSome = true
    unfold findGradeAux
    cases hx : (if prevBoundary prev then matchGradeHere (p :: (ps ++ tail)) else none) with
    | some r => simp [hx]
    | none =>
      simp only [hx]
      exact ih (some p) tail hb hm

theorem matchCI_startsWithCI :
    ∀ (pat s : List Char) (x : List Char × List Char),
      matchCI pat s = some x → startsWithCI pat s = true := by
  intro pat
  induction pat with
  | nil => intro s x _; rfl
  | cons p ps ih =>
    intro s x h
    cases s with
    | nil => simp [matchCI] at h
    | cons c cs =>
      by_cases hc : p.toLower = c.toLower
      · simp only [matchCI, if_pos hc] at h
        cases hm : matchCI ps cs with
        | none => rw [hm] at h; simp at h
        | some y =>
          simp only [startsWithCI, Bool.and_eq_true, beq_iff_eq]
          exact ⟨hc.symm, ih cs y hm⟩
      · simp [matchCI, if_neg hc] at h

theorem containsTokenCI_head {pat l : List Char} (h : startsWithCI pat l = true) :
    containsTokenCI pat l = true := by
  cases l with
  | nil => exact h
  | cons c cs => simp [containsTokenCI, h]

theorem containsTokenCI_tail {pat : List Char} {c : Char} {cs : List Char}
    (h : containsTokenCI pat cs = true) : containsTokenCI pat (c :: cs) = true := by
  simp [containsTokenCI, h]

theorem containsGradeCode_tail {c : Char} {cs : List Char}
    (h : containsGradeCode cs = true) : containsGradeCode (c :: cs) = true := by
  unfold containsGradeCode at *
  simp only [Bool.or_eq_true] at *
  rcases h with (h | h) | h
  · exact Or.inl (Or.inl (containsTokenCI_tail h))
  · exact Or.inl (Or.inr (containsTokenCI_tail h))
  · exact Or.inr (containsTokenCI_tail h)

theorem matchGradeCode_starts {s : List Char} {x : List Char × List Char}
    (h : matchGradeCode s = some x) :
    startsWithCI ['P', 'S', 'A'] s = true ∨ startsWithCI ['B', 'G', 'S'] s = true ∨
      startsWithCI ['S', 'G', 'C'] s = true := by
  unfold matchGradeCode at h
  cases h1 : matchCI ['P', 'S', 'A'] s with
  | some y => exact Or.inl (matchCI_startsWithCI _ _ y h1)
  | none =>
    rw [h1] at h
    cases h2 : matchCI ['B', 'G', 'S'] s with
    | some y => exact Or.inr (Or.inl (matchCI_startsWithCI _ _ y h2))
    | none =>
      rw [h2] at h
      exact Or.inr (Or.inr (matchCI_startsWithCI _ _ x h))

theorem findGradeAux_containsCode :
    ∀ (l : List Char) (prev : Option Char) (x : List Char × List Char × List Char),
      findGradeAux prev l = some x → containsGradeCode l = true := by
  intro l
  induction l with
  | nil => intro prev x h; simp [findGradeAux] at h
  | cons c cs ih =>
    intro prev x h
    unfold findGradeAux at h
    cases hx : (if prevBoundary prev then matchGradeHere (c :: cs) else none) with
    | none =>
      rw [hx] at h
      exact containsGradeCode_tail (ih (some c) x h)
    | some r =>
      have hm : matchGradeHere (c :: cs) = some r := by
        by_cases hpb : prevBoundary prev = true
        · rw [if_pos hpb] at hx; exact hx
        · rw [if_neg hpb] at hx; exact absurd hx (by simp)
      -- extract the code match from `matchGradeHere`
      have hcm : ∃ y, matchGradeCode (c :: cs) = some y := by
        unfold matchGradeHere at hm
        cases hg : matchGradeCode (c :: cs) with
        | none => rw [hg] at hm; simp at hm
        | some y => exact ⟨y, rfl⟩
      obtain ⟨y, hy⟩ := hcm
      unfold containsGradeCode
      simp only [Bool.or_eq_true]
      rcases matchGradeCode_starts hy with h1 | h1 | h1
      · exact Or.inl (Or.inl (containsTokenCI_head h1))
      · exact Or.inl (Or.inr (containsTokenCI_head h1))
      · exact Or.inr (containsTokenCI_head h1)

theorem matchCardLabel_starts {s r : List Char} (h : matchCardLabel s = some r) :
    startsWithCI ['#'] s = true ∨ startsWithCI ['N', 'o', '.'] s = true ∨
      startsWithCI ['C', 'a', 'r', 'd'] s = true := by
  unfold matchCardLabel at h
  split at h
  · rename_i r0
    exact Or.inl (by simp [startsWithCI])
  · cases h1 : matchCI ['N', 'o', '.'] s with
    | some y =>
      exact Or.inr (Or.inl (matchCI_startsWithCI _ _ y h1))
    | none =>
      rw [h1] at h
      cases h2 : matchCI ['C', 'a', 'r', 'd'] s with
      | some y => exact Or.inr (Or.inr (matchCI_startsWithCI _ _ y h2))
      | none => rw [h2] at h; simp at h

theorem containsCardLabel_tail {c : Char} {cs : List Char}
    (h : containsCardLabel cs = true) : containsCardLabel (c :: cs) = true := by
  unfold containsCardLabel at *
  simp only [Bool.or_eq_true] at *
  rcases h with (h | h) | h
  · exact Or.inl (Or.inl (containsTokenCI_tail h))
  · exact Or.inl (Or.inr (containsTokenCI_tail h))
  · exact Or.inr (containsTokenCI_tail h)

theorem matchCardHere_label {s g : List Char} (h : matchCardHere s = some g) :
    ∃ r, matchCardLabel s = some r := by
  unfold matchCardHere at h
  cases hl : matchCardLabel s with
  | none => rw [hl] at h; simp at h
  | some r => exact ⟨r, rfl⟩

theorem findCardAux_contains :
    ∀ (l : List Char) (g : List Char), findCardAux l = some g → containsCardLabel l = true := by
  intro l
  induction l with
  | nil => intro g h; simp [findCardAux] at h
  | cons c cs ih =>
    intro g h
    unfold findCardAux at h
    cases hx : matchCardHere (c :: cs) with
    | none =>
      rw [hx] at h
      exact containsCardLabel_tail (ih g h)
    | some r =>
      obtain ⟨r0, hr0⟩ := matchCardHere_label hx
      unfold containsCardLabel
      simp only [Bool.or_eq_true]
      rcases matchCardLabel_starts hr0 with h1 | h1 | h1
      · exact Or.inl (Or.inl (containsTokenCI_head h1))
      · exact Or.inl (Or.inr (containsTokenCI_head h1))
      · exact Or.inr (containsTokenCI_head h1)

theorem matchCardHere_shape {s g : List Char} (h : matchCardHere s = some g) :
    ∃ ds tl, g = ds ++ tl ∧ ds ≠ [] ∧ ds.length ≤ 4 ∧ ds.all Char.isDigit = true ∧
      (tl = [] ∨ ∃ c, tl = [c] ∧ c.isAlpha = true) := by
  unfold matchCardHere at h
  cases hl : matchCardLabel s with
  | none => rw [hl] at h; simp at h
  | some r =>
    rw [hl] at h
    dsimp only at h
    have hall : (((r.dropWhile isPySpace).takeWhile Char.isDigit).take 4).all Char.isDigit
        = true := by
      refine List.all_eq_true.mpr ?_
      intro x hx
      have hx' : x ∈ (r.dropWhile isPySpace).takeWhile Char.isDigit :=
        List.take_subset 4 _ hx
      exact List.all_eq_true.mp (takeWhile_all _) x hx'
    have hlen : (((r.dropWhile isPySpace).takeWhile Char.isDigit).take 4).length ≤ 4 :=
      List.length_take_le 4 _
    split at h
    · exact absurd h (by simp)
    · rename_i hne
      split at h
      · rename_i c rest heq
        split at h
        · simp only [Option.some.injEq] at h
          exact ⟨_, [c], h.symm, hne, hlen, hall, Or.inr ⟨c, rfl, by assumption⟩⟩
        · simp only [Option.some.injEq] at h
          exact ⟨_, [], by rw [← h]; simp, hne, hlen, hall, Or.inl rfl⟩
      · simp only [Option.some.injEq] at h
        exact ⟨_, [], by rw [← h]; simp, hne, hlen, hall, Or.inl rfl⟩

theorem findCardAux_shape :
    ∀ (l g : List Char), findCardAux l = some g →
      ∃ ds tl, g = ds ++ tl ∧ ds ≠ [] ∧ ds.length ≤ 4 ∧ ds.all Char.isDigit = true ∧
        (tl = [] ∨ ∃ c, tl = [c] ∧ c.isAlpha = true) := by
  intro l
  induction l with
  | nil => intro g h; simp [findCardAux] at h
  | cons c cs ih =>
    intro g h
    unfold findCardAux at h
    cases hx : matchCardHere (c :: cs) with
    | none => rw [hx] at h; exact ih g h
    | some r =>
      rw [hx] at h
      simp only [Option.some.injEq] at h
      subst h
      exact matchCardHere_shape hx

theorem scanPairs_allStop :
    ∀ l : List String, (∀ tok ∈ l, cleanTok tok ∈ BRAND_STOPWORDS) → scanPairs l = none := by
  intro l
  induction l with
  | nil => intro _; rfl
  | cons t1 ts ih =>
    intro h
    cases ts with
    | nil => rfl
    | cons t2 ts' =>
      have h1 : cleanTok t1 ∈ BRAND_STOPWORDS := h t1 (by simp)
      have hrest : ∀ tok ∈ t2 :: ts', cleanTok tok ∈ BRAND_STOPWORDS := by
        intro tok htok
        exact h tok (by simp at htok ⊢; tauto)
      unfold scanPairs
      rw [if_pos (Or.inl h1)]
      exact ih hrest

theorem guess_player_head {t : String}
    (h : ∀ tok ∈ pySplit t, cleanTok tok ∈ BRAND_STOPWORDS) :
    guess_player t = (pySplit t).head? := by
  simp only [guess_player]
  rw [scanPairs_allStop (pySplit t) h]

theorem guess_player_total {t : String} (h : pySplit t ≠ []) :
    ∃ p, guess_player t = some p := by
  simp only [guess_player]
  cases hs : scanPairs (pySplit t) with
  | some p => exact ⟨p, rfl⟩
  | none =>
    cases hp : pySplit t with
    | nil => exact absurd hp h
    | cons x xs => exact ⟨x, rfl⟩

theorem processItems_total (y : Int) :
    ∀ items : List RawItem, (∀ it ∈ items, pySplit it.title ≠ []) →
      ∃ rs, processItems y items = some rs := by
  intro items
  induction items with
  | nil => intro _; exact ⟨[], rfl⟩
  | cons it its ih =>
    intro h
    obtain ⟨p, hp⟩ := guess_player_total (h it (by simp))
    obtain ⟨rs, hrs⟩ := ih (fun x hx => h x (by simp [hx]))
    refine ⟨⟨y, it.title, p, grade_of it.title, card_no_of it.title,
      it.viewItemURL, it.galleryURL⟩ :: rs, ?_⟩
    unfold processItems mkRow parse_title
    rw [hp, hrs]

/-! ### One-step computation lemmas for the v3 retrieval loop -/

theorem runScrape_cap_step {y mp : Int} {d : ℚ} {fuel : Nat} {st : LoopSt}
    {outs : List FetchOutcome} (hcap : mp ≠ 0 ∧ (st.fetched : Int) ≥ mp) :
    runScrape y mp d (fuel + 1) st outs = .done st := by
  rw [runScrape.eq_def]
  dsimp only
  rw [if_pos hcap]

theorem runScrape_failure_step {y mp : Int} {d : ℚ} {fuel : Nat} {st : LoopSt}
    {rest : List FetchOutcome} (hcap : ¬(mp ≠ 0 ∧ (st.fetched : Int) ≥ mp)) :
    runScrape y mp d (fuel + 1) st (.failure :: rest) =
      runScrape y mp d fuel
        { st with calls := st.calls + 1, trace := st.trace ++ [.warn st.page 5] } rest := by
  rw [runScrape.eq_def]
  dsimp only
  rw [if_neg hcap]

theorem runScrape_empty_step {y mp : Int} {d : ℚ} {fuel : Nat} {st : LoopSt} {r : Response}
    {rest : List FetchOutcome} (hcap : ¬(mp ≠ 0 ∧ (st.fetched : Int) ≥ mp))
    (hempty : r.items.isEmpty = true) :
    runScrape y mp d (fuel + 1) st (.success r :: rest) =
      .done { st with calls := st.calls + 1 } := by
  rw [runScrape.eq_def]
  dsimp only
  rw [if_neg hcap]
  simp only [hempty, if_true]

theorem runScrape_crash_step {y mp : Int} {d : ℚ} {fuel : Nat} {st : LoopSt} {r : Response}
    {rest : List FetchOutcome} (hcap : ¬(mp ≠ 0 ∧ (st.fetched : Int) ≥ mp))
    (hne : r.items.isEmpty = false) (hproc : processItems y r.items = none) :
    runScrape y mp d (fuel + 1) st (.success r :: rest) =
      .crashed { st with calls := st.calls + 1 } := by
  rw [runScrape.eq_def]
  dsimp only
  rw [if_neg hcap]
  simp only [hne, Bool.false_eq_true, if_false, hproc]

theorem runScrape_last_step {y mp : Int} {d : ℚ} {fuel : Nat} {st : LoopSt} {r : Response}
    {rest : List FetchOutcome} {rs : List Row}
    (hcap : ¬(mp ≠ 0 ∧ (st.fetched : Int) ≥ mp))
    (hne : r.items.isEmpty = false) (hproc : processItems y r.items = some rs)
    (hpage : (st.page : Int) ≥ r.totalPages) :
    runScrape y mp d (fuel + 1) st (.success r :: rest) =
      .done
        { st with
          calls := st.calls + 1
          rows := st.rows ++ rs
          fetched := st.fetched + 1 } := by
  rw [runScrape.eq_def]
  dsimp only
  rw [if_neg hcap]
  simp only [hne, Bool.false_eq_true, if_false, hproc]
  rw [if_pos hpage]

theorem runScrape_next_step {y mp : Int} {d : ℚ} {fuel : Nat} {st : LoopSt} {r : Response}
    {rest : List FetchOutcome} {rs : List Row}
    (hcap : ¬(mp ≠ 0 ∧ (st.fetched : Int) ≥ mp))
    (hne : r.items.isEmpty = false) (hproc : processItems y r.items = some rs)
    (hpage : ¬((st.page : Int) ≥ r.totalPages)) :
    runScrape y mp d (fuel + 1) st (.success r :: rest) =
      runScrape y mp d fuel
        { st with
          page := st.page + 1
          calls := st.calls + 1
          rows := st.rows ++ rs
          fetched := st.fetched + 1
          trace := st.trace ++ [.sleep d] }
        rest := by
  rw [runScrape.eq_def]
  dsimp only
  rw [if_neg hcap]
  simp only [hne, Bool.false_eq_true, if_false, hproc]
  rw [if_neg hpage]

theorem runScrape_skipFailures (y mp : Int) (d : ℚ) :
    ∀ (n f : Nat) (st : LoopSt) (outs : List FetchOutcome),
      ¬(mp ≠ 0 ∧ (st.fetched : Int) ≥ mp) →
      runScrape y mp d (n + f) st (List.replicate n .failure ++ outs) =
        runScrape y mp d f
          { st with
            calls := st.calls + n
            trace := st.trace ++ List.replicate n (.warn st.page 5) }
          outs := by
  intro n
  induction n with
  | zero =>
    intro f st outs _
    simp
  | succ n ih =>
    intro f st outs hcap
    have hfuel : (n + 1) + f = (n + f) + 1 := by omega
    rw [hfuel, List.replicate_succ, List.cons_append, runScrape_failure_step hcap,
      ih f { st with calls := st.calls + 1, trace := st.trace ++ [.warn st.page 5] } outs hcap]
    congr 1
    simp [List.replicate_succ, Nat.add_assoc]
    omega

theorem isEmpty_false_of_ne {α : Type} {l : List α} (h : l ≠ []) : l.isEmpty = false := by
  cases l with
  | nil => exact absurd rfl h
  | cons a as => rfl

/-! ## Claim theorems -/

/-- C2: player-name extraction (v3.py/escrapebulk1.py `guess_player`) is NOT
total: on the empty title it raises `IndexError` (`tok[0]` on `[]`), modelled
here as `none`.  It is total on every title with at least one whitespace
token, and on a title whose tokens are all brand stopwords it returns the
first token verbatim (the claim's second half, which does hold). -/
theorem c2_guess_player_totality :
    guess_player "" = none ∧
      (∀ t : String, pySplit t ≠ [] → (guess_player t).isSome = true) ∧
      (∀ t : String, (∀ tok ∈ pySplit t, cleanTok tok ∈ BRAND_STOPWORDS) →
        guess_player t = (pySplit t).head?) := by
  refine ⟨by decide, ?_, ?_⟩
  · intro t h
    obtain ⟨p, hp⟩ := guess_player_total h
    rw [hp]
    rfl
  · intro t h
    exact guess_player_head h

/-- C2 witness: a stopword-only title returns its first token; a normal
title succeeds. -/
theorem c2_guess_player_totality_witness :
    guess_player "Topps Chrome" = (pySplit "Topps Chrome").head? ∧
      (guess_player "Mike Trout").isSome = true :=
  ⟨c2_guess_player_totality.2.2 "Topps Chrome" (by decide),
   c2_guess_player_totality.2.1 "Mike Trout" (by decide)⟩

/-- C7: card-number extraction (v3.py CARD_NO_RE) is label-agnostic — the
three label forms `#27`, `No. 27`, `Card #27` all yield `"27"` (only the
numeric group is kept) — and a title containing no label character/word
(`#`, `No.`, `Card`, case-insensitive) yields the sentinel `"N/A"`. -/
theorem c7_card_no_label_agnostic :
    card_no_of "1986 Fleer #27 Jordan" = "27" ∧
      card_no_of "1986 Fleer No. 27 Jordan" = "27" ∧
      card_no_of "1986 Fleer Card #27 Jordan" = "27" ∧
      (∀ t : String, containsCardLabel t.toList = false → card_no_of t = "N/A") := by
  refine ⟨by decide, by decide, by decide, ?_⟩
  intro t h
  unfold card_no_of
  cases hf : findCardAux t.toList with
  | none => rfl
  | some g =>
    have h1 := findCardAux_contains _ g hf
    rw [h] at h1
    exact absurd h1 (by decide)

/-- C7 witness: a title with no card-number label yields "N/A". -/
theorem c7_card_no_label_agnostic_witness :
    card_no_of "Mike Trout" = "N/A" :=
  c7_card_no_label_agnostic.2.2.2 "Mike Trout" (by decide)

/-- C10: a label followed by five or more digits yields only the first four
(`#12345` → `"1234"`), and in general every extracted card number is 1-4
digits plus at most one trailing letter — never more. -/
theorem c10_card_no_truncation :
    card_no_of "Mickey Mantle #12345 Rookie" = "1234" ∧
      (∀ t : String, card_no_of t = "N/A" ∨
        ∃ ds tl, card_no_of t = String.mk (ds ++ tl) ∧ ds ≠ [] ∧ ds.length ≤ 4 ∧
          ds.all Char.isDigit = true ∧ (tl = [] ∨ ∃ c, tl = [c] ∧ c.isAlpha = true)) := by
  refine ⟨by decide, ?_⟩
  intro t
  unfold card_no_of
  cases hf : findCardAux t.toList with
  | none => exact Or.inl rfl
  | some g =>
    obtain ⟨ds, tl, hg, hne, hlen, hall, htl⟩ := findCardAux_shape _ g hf
    exact Or.inr ⟨ds, tl, by rw [hg], hne, hlen, hall, htl⟩

/-- C8: the year specification "1980-1982,1985" resolves to exactly
[1980, 1981, 1982, 1985] ascending, and duplicates collapse
("1985,1985" → [1985]). -/
theorem c8_parse_years_ranges :
    parse_years "1980-1982,1985" = some [1980, 1981, 1982, 1985] ∧
      parse_years "1985,1985" = some [1985] := by
  constructor
  · decide
  · decide

/-- C9: a reversed range token start > end contributes no years
(`range(s, e + 1)` is empty), silently: no error is raised and other
tokens still contribute. -/
theorem c9_reversed_range_empty :
    (∀ s e : Int, e < s → pyRangeIncl s e = []) ∧
      parse_years "1990-1985" = some [] ∧
      parse_years "1990-1985,1987" = some [1987] := by
  refine ⟨?_, by decide, by decide⟩
  intro s e h
  unfold pyRangeIncl
  have h0 : (e + 1 - s).toNat = 0 := by omega
  rw [h0]
  rfl

/-- C9 witness: the reversed range 1990-1985 is empty. -/
theorem c9_reversed_range_empty_witness :
    pyRangeIncl 1990 1985 = [] :=
  c9_reversed_range_empty.1 1990 1985 (by decide)

/-- C6 (amended): for every title containing a grading pattern, the
v3.py/escrapebulk1.py grade extraction returns the uppercased matched
authority code and the exact numeric grade token of an occurrence present
in the title, space-joined; any title containing none of the three
authority codes (even as a bare substring) yields "N/A" in both variants.
escrape.py's variant instead returns the whole matched text uppercased
with its original spacing kept (e.g. "psa10" → "PSA10", not "PSA 10"). -/
theorem c6_grade_extraction :
    (∀ t : String, hasGradePattern t →
      ∃ pre code ws num post, gradeOccAt t.toList pre code ws num post ∧
        grade_of t = pyUpper (String.mk code) ++ " " ++ String.mk num) ∧
      (∀ t : String, containsGradeCode t.toList = false → grade_of t = "N/A") ∧
      (∀ t : String, containsGradeCode t.toList = false → escGrade t = "N/A") ∧
      escGrade "Michael Jordan psa10 rookie" = "PSA10" := by
  refine ⟨?_, ?_, ?_, by decide⟩
  · intro t ht
    obtain ⟨pre, code, ws, num, post, hsplit, hcode, hws, hnum, hbl, hbr⟩ := ht
    have hm : (matchGradeHere (code ++ ws ++ num ++ post)).isSome = true :=
      matchGradeHere_complete hcode hws hnum hbr
    have hf : (findGradeAux none (pre ++ (code ++ ws ++ num ++ post))).isSome = true :=
      findGradeAux_complete pre none _ hbl hm
    have heq : pre ++ (code ++ ws ++ num ++ post) = t.toList := by
      rw [hsplit]
      simp
    rw [heq] at hf
    cases hgx : findGradeAux none t.toList with
    | none => rw [hgx] at hf; exact absurd hf (by decide)
    | some x =>
      obtain ⟨code', ws', num'⟩ := x
      obtain ⟨mid, post', hsplit', hcode', hws', hnum', hbl', hbr'⟩ :=
        findGradeAux_sound t.toList none code' ws' num' hgx
      refine ⟨mid, code', ws', num', post',
        ⟨hsplit', hcode', hws', hnum', hbl', hbr'⟩, ?_⟩
      unfold grade_of
      rw [hgx]
  · intro t h
    unfold grade_of
    cases hf : findGradeAux none t.toList with
    | none => rfl
    | some x =>
      have h1 := findGradeAux_containsCode _ none x hf
      rw [h] at h1
      exact absurd h1 (by decide)
  · intro t h
    unfold escGrade
    cases hf : findGradeAux none t.toList with
    | none => rfl
    | some x =>
      have h1 := findGradeAux_containsCode _ none x hf
      rw [h] at h1
      exact absurd h1 (by decide)

/-- C6 counterexample to the claim as stated: "Michael Jordan psa10 rookie"
contains a grading pattern (code "psa", no whitespace, grade "10"), but
escrape.py's grade extraction returns "PSA10", not the space-joined
"PSA 10" the claim requires. -/
theorem c6_grade_extraction_counterexample :
    hasGradePattern "Michael Jordan psa10 rookie" ∧
      escGrade "Michael Jordan psa10 rookie" = "PSA10" ∧
      escGrade "Michael Jordan psa10 rookie" ≠ "PSA 10" := by
  refine ⟨?_, by decide, by decide⟩
  refine ⟨"Michael Jordan ".toList, ['p', 's', 'a'], [], ['1', '0'],
    " rookie".toList, by decide, by decide, by decide, Or.inl (by decide), ?_, ?_⟩
  · intro c hc
    have hl : myLast none ("Michael Jordan ".toList) = some ' ' := by decide
    rw [hl] at hc
    simp at hc
    rw [← hc]
    decide
  · intro c hc
    have hl : (" rookie".toList).head? = some ' ' := by decide
    rw [hl] at hc
    simp at hc
    rw [← hc]
    decide

/-- C6 witness: the spec's own example title, and an N/A case. -/
theorem c6_grade_extraction_witness :
    (∃ pre code ws num post,
      gradeOccAt ("2020 Topps Chrome PSA 10 Mike Trout #27").toList pre code ws num post ∧
        grade_of "2020 Topps Chrome PSA 10 Mike Trout #27" =
          pyUpper (String.mk code) ++ " " ++ String.mk num) ∧
      grade_of "plain vintage lot" = "N/A" := by
  constructor
  · refine c6_grade_extraction.1 "2020 Topps Chrome PSA 10 Mike Trout #27"
      ⟨"2020 Topps Chrome ".toList, ['P', 'S', 'A'], [' '], ['1', '0'],
        " Mike Trout #27".toList, by decide, by decide, by decide, Or.inl (by decide), ?_, ?_⟩
    · intro c hc
      have hl : myLast none ("2020 Topps Chrome ".toList) = some ' ' := by decide
      rw [hl] at hc
      simp at hc
      rw [← hc]
      decide
    · intro c hc
      have hl : (" Mike Trout #27".toList).head? = some ' ' := by decide
      rw [hl] at hc
      simp at hc
      rw [← hc]
      decide
  · exact c6_grade_extraction.2.1 "plain vintage lot" (by decide)

/-- C5: on a fetch failure the v3.py controller pauses for the fixed 5-unit
cooldown and re-attempts the same page, for any number `n` of consecutive
failures (no retry limit, no backoff growth): the run continues exactly as
if the failures had not happened — same page, same fetched-page counter,
same accumulated rows — with `n` warn/cooldown-5 events recorded at the
same page number. -/
theorem c5_retry_same_page :
    ∀ (y mp : Int) (d : ℚ) (n f : Nat) (st : LoopSt) (outs : List FetchOutcome),
      ¬(mp ≠ 0 ∧ (st.fetched : Int) ≥ mp) →
      runScrape y mp d (n + f) st (List.replicate n .failure ++ outs) =
        runScrape y mp d f
          { st with
            calls := st.calls + n
            trace := st.trace ++ List.replicate n (.warn st.page 5) }
          outs :=
  fun y mp d n f st outs h => runScrape_skipFailures y mp d n f st outs h

/-- C5 witness: one failure before an empty page leaves the state unchanged
apart from the recorded cooldown, and the run then continues. -/
theorem c5_retry_same_page_witness :
    runScrape 1990 0 1 2 initState [.failure, .success ⟨[], 0⟩] =
      runScrape 1990 0 1 1 ⟨1, 0, [], 1, [.warn 1 5]⟩ [.success ⟨[], 0⟩] :=
  c5_retry_same_page 1990 0 1 1 1 initState [.success ⟨[], 0⟩] (by decide)

/-- C4: in v3.py, a first successful response with an empty item array
(after any number of failed attempts) ends the year's retrieval normally
with an empty row list, and the per-year CSV guard `if rows:` writes a file
only when at least one record was produced.  escrape.py, by contrast,
writes unconditionally: on an empty year it opens the file and then
`all_rows[0]` raises IndexError. -/
theorem c4_empty_first_page :
    (∀ (y mp : Int) (d : ℚ) (tp : Int) (rest : List FetchOutcome) (n f : Nat),
      ¬(mp ≠ 0 ∧ (0 : Int) ≥ mp) →
      runScrape y mp d (n + (f + 1)) initState
          (List.replicate n .failure ++ .success ⟨[], tp⟩ :: rest) =
        .done ⟨1, 0, [], n + 1, List.replicate n (.warn 1 5)⟩) ∧
      (∀ rows : List Row, writesCsv rows = true → rows ≠ []) ∧
      writesCsv [] = false ∧
      escrapeRun 1990 10 [.success ⟨[], 0⟩] = .indexError := by
  refine ⟨?_, ?_, by decide, by decide⟩
  · intro y mp d tp rest n f hcap
    rw [runScrape_skipFailures y mp d n (f + 1) initState _ (by exact hcap)]
    rw [runScrape_empty_step (by exact hcap)
      (show ((⟨[], tp⟩ : Response)).items.isEmpty = true from rfl)]
    congr 1
    simp [initState]
  · intro rows h
    intro hrows
    rw [hrows] at h
    exact absurd h (by decide)

/-- C4 witness: the simplest empty first page, uncapped, no failures. -/
theorem c4_empty_first_page_witness :
    runScrape 1990 0 1 1 initState [.success ⟨[], 7⟩] = .done ⟨1, 0, [], 1, []⟩ ∧
      ([⟨1990, "t", "p", "g", "c", "u", "i"⟩] : List Row) ≠ [] :=
  ⟨c4_empty_first_page.1 1990 0 1 7 [] 0 0 (by decide),
   c4_empty_first_page.2.1 [⟨1990, "t", "p", "g", "c", "u", "i"⟩] (by decide)⟩

/-- C1 counterexample to the claim as stated: every response reports
totalPages = 0 with non-empty items, yet the controller stops after the
very first page (the check `page >= total_pg` holds as 1 ≥ 0) with the
second response never fetched — it does not continue until an empty item
array appears. -/
theorem c1_unknown_total_counterexample :
    runScrape 1990 0 1 10 initState
        [.success ⟨[⟨"Mike Trout", "", "", ""⟩], 0⟩,
         .success ⟨[⟨"Mike Trout", "", "", ""⟩], 0⟩] =
      .done ⟨1, 1, [⟨1990, "Mike Trout", "Mike Trout", "N/A", "N/A", "", ""⟩], 1, []⟩ := by
  decide

/-- C1 (amended): when the first response reports totalPages = 0 (unknown)
with a non-empty, parseable item list, the v3.py controller performs
exactly one fetch and stops via the page-count termination check
(`page >= total_pg`, i.e. 1 ≥ 0) — the empty-items termination is never
reached. -/
theorem c1_unknown_total_amended :
    ∀ (y mp : Int) (d : ℚ) (f : Nat) (items : List RawItem) (rest : List FetchOutcome)
      (rs : List Row),
      ¬(mp ≠ 0 ∧ (0 : Int) ≥ mp) → items ≠ [] → processItems y items = some rs →
      runScrape y mp d (f + 1) initState (.success ⟨items, 0⟩ :: rest) =
        .done ⟨1, 1, rs, 1, []⟩ := by
  intro y mp d f items rest rs hcap hne hproc
  rw [runScrape_last_step (by exact hcap) (isEmpty_false_of_ne hne) hproc
    (by show (1 : Int) ≥ 0; decide)]
  rfl

/-- C1 witness: a single always-nonempty page with totalPages = 0. -/
theorem c1_unknown_total_amended_witness :
    runScrape 1990 0 1 1 initState [.success ⟨[⟨"Mike Trout", "", "", ""⟩], 0⟩] =
      .done ⟨1, 1, [⟨1990, "Mike Trout", "Mike Trout", "N/A", "N/A", "", ""⟩], 1, []⟩ :=
  c1_unknown_total_amended 1990 0 1 0 [⟨"Mike Trout", "", "", ""⟩] []
    [⟨1990, "Mike Trout", "Mike Trout", "N/A", "N/A", "", ""⟩]
    (by decide) (by decide) (by decide)

/-- C3 counterexample to the claim as stated: three successful responses
with totalPages = 3 and non-empty items on every page — but the first page
holds an item whose title is blank, so `parse_title`/`guess_player` raises
IndexError (see C2) and the run aborts after exactly ONE fetch instead of
issuing three and stopping normally. -/
theorem c3_pagination_counterexample :
    runScrape 1990 0 1 10 initState
        [.success ⟨[⟨"", "", "", ""⟩], 3⟩,
         .success ⟨[⟨"Mike Trout", "", "", ""⟩], 3⟩,
         .success ⟨[⟨"Mike Trout", "", "", ""⟩], 3⟩] =
      .crashed ⟨1, 0, [], 1, []⟩ := by
  decide

/-- C3 (amended): provided every item's title has at least one whitespace
token (so row assembly cannot raise), the v3.py controller issues exactly
3 fetches for totalPages = 3 with non-empty items, stopping at
`page >= total_pg`; and with max_pages = 2 it issues exactly 2 fetches for
totalPages = 5 and stops early via the cap check. -/
theorem c3_pagination_termination :
    (∀ (y : Int) (d : ℚ) (f : Nat) (i1 i2 i3 : List RawItem) (rest : List FetchOutcome)
        (rs1 rs2 rs3 : List Row),
      i1 ≠ [] → i2 ≠ [] → i3 ≠ [] →
      processItems y i1 = some rs1 → processItems y i2 = some rs2 →
      processItems y i3 = some rs3 →
      runScrape y 0 d (f + 3) initState
          (.success ⟨i1, 3⟩ :: .success ⟨i2, 3⟩ :: .success ⟨i3, 3⟩ :: rest) =
        .done ⟨3, 3, rs1 ++ rs2 ++ rs3, 3, [.sleep d, .sleep d]⟩) ∧
    (∀ (y : Int) (d : ℚ) (f : Nat) (i1 i2 : List RawItem) (rest : List FetchOutcome)
        (rs1 rs2 : List Row),
      i1 ≠ [] → i2 ≠ [] →
      processItems y i1 = some rs1 → processItems y i2 = some rs2 →
      runScrape y 2 d (f + 3) initState (.success ⟨i1, 5⟩ :: .success ⟨i2, 5⟩ :: rest) =
        .done ⟨3, 2, rs1 ++ rs2, 2, [.sleep d, .sleep d]⟩) := by
  constructor
  · intro y d f i1 i2 i3 rest rs1 rs2 rs3 h1 h2 h3 hp1 hp2 hp3
    rw [show f + 3 = (f + 2) + 1 from by omega]
    rw [runScrape_next_step (by decide) (isEmpty_false_of_ne h1) hp1
      (by show ¬((1 : Int) ≥ 3); decide)]
    rw [show f + 2 = (f + 1) + 1 from by omega]
    rw [runScrape_next_step
      (by show ¬((0 : Int) ≠ 0 ∧ ((1 : Nat) : Int) ≥ 0); decide)
      (isEmpty_false_of_ne h2) hp2
      (by show ¬(((2 : Nat) : Int) ≥ 3); decide)]
    rw [runScrape_last_step
      (by show ¬((0 : Int) ≠ 0 ∧ ((2 : Nat) : Int) ≥ 0); decide)
      (isEmpty_false_of_ne h3) hp3
      (by show ((3 : Nat) : Int) ≥ 3; decide)]
    rfl
  · intro y d f i1 i2 rest rs1 rs2 h1 h2 hp1 hp2
    rw [show f + 3 = (f + 2) + 1 from by omega]
    rw [runScrape_next_step (by decide) (isEmpty_false_of_ne h1) hp1
      (by show ¬((1 : Int) ≥ 5); decide)]
    rw [show f + 2 = (f + 1) + 1 from by omega]
    rw [runScrape_next_step
      (by show ¬((2 : Int) ≠ 0 ∧ ((1 : Nat) : Int) ≥ 2); decide)
      (isEmpty_false_of_ne h2) hp2
      (by show ¬(((2 : Nat) : Int) ≥ 5); decide)]
    rw [runScrape_cap_step
      (by show (2 : Int) ≠ 0 ∧ ((2 : Nat) : Int) ≥ 2; decide)]
    rfl

/-- C3 witness: both scenarios at a concrete well-formed item. -/
theorem c3_pagination_termination_witness :
    runScrape 1990 0 1 3 initState
        [.success ⟨[⟨"Mike Trout", "", "", ""⟩], 3⟩,
         .success ⟨[⟨"Mike Trout", "", "", ""⟩], 3⟩,
         .success ⟨[⟨"Mike Trout", "", "", ""⟩], 3⟩] =
      .done ⟨3, 3,
        [⟨1990, "Mike Trout", "Mike Trout", "N/A", "N/A", "", ""⟩,
         ⟨1990, "Mike Trout", "Mike Trout", "N/A", "N/A", "", ""⟩,
         ⟨1990, "Mike Trout", "Mike Trout", "N/A", "N/A", "", ""⟩], 3,
        [.sleep 1, .sleep 1]⟩ ∧
      runScrape 1990 2 1 3 initState
        [.success ⟨[⟨"Mike Trout", "", "", ""⟩], 5⟩,
         .success ⟨[⟨"Mike Trout", "", "", ""⟩], 5⟩] =
      .done ⟨3, 2,
        [⟨1990, "Mike Trout", "Mike Trout", "N/A", "N/A", "", ""⟩,
         ⟨1990, "Mike Trout", "Mike Trout", "N/A", "N/A", "", ""⟩], 2,
        [.sleep 1, .sleep 1]⟩ :=
  ⟨c3_pagination_termination.1 1990 1 0 [⟨"Mike Trout", "", "", ""⟩]
      [⟨"Mike Trout", "", "", ""⟩] [⟨"Mike Trout", "", "", ""⟩] []
      [⟨1990, "Mike Trout", "Mike Trout", "N/A", "N/A", "", ""⟩]
      [⟨1990, "Mike Trout", "Mike Trout", "N/A", "N/A", "", ""⟩]
      [⟨1990, "Mike Trout", "Mike Trout", "N/A", "N/A", "", ""⟩]
      (by decide) (by decide) (by decide) (by decide) (by decide) (by decide),
   c3_pagination_termination.2 1990 1 0 [⟨"Mike Trout", "", "", ""⟩]
      [⟨"Mike Trout", "", "", ""⟩] []
      [⟨1990, "Mike Trout", "Mike Trout", "N/A", "N/A", "", ""⟩]
      [⟨1990, "Mike Trout", "Mike Trout", "N/A", "N/A", "", ""⟩]
      (by decide) (by decide) (by decide) (by decide)⟩
